import Mathlib

/-!
Verification development for the Homeworlds online sync layer.

The definitions below are shallow embeddings of the JavaScript source:
`auth.js` (tier system, `calcElo`), the two `online.js` client variants and
`sync.js` (action-log subscription, opponent-state application, state
restore), and the Firebase Cloud Functions file (`calcEloDelta`,
`onRoomStatusChange`, `checkTimedOutGames`, `checkVerifCode`).

Numbers that the program keeps as JavaScript integers are modelled as `Int`
or `Nat`; the Elo expected-score formula, which the source evaluates with
floating-point `Math.pow` and `Math.round`, is modelled over the reals with
`Real.rpow` and Mathlib `round` (both `Math.round` and `round` map `x` to
`⌊x + 1/2⌋`).
-/

namespace Homeworlds

/-! ### Elo rating (cloud functions `calcEloDelta`, auth.js `calcElo`) -/

/-- The local constant `expected = 1 / (1 + Math.pow(10, (oppElo - myElo) / 400))`
the local constant computed inside `calcEloDelta` in the cloud functions
(and inline in `handleLocalWin` / `calcElo`). -/
noncomputable def expectedScore (myElo oppElo : ℤ) : ℝ :=
  1 / (1 + (10 : ℝ) ^ ((((oppElo - myElo) : ℤ) : ℝ) / 400))

/-- Cloud functions:
`calcEloDelta(myElo, oppElo, actual) = Math.round(K * (actual - expected))`
with `K = 32`. -/
noncomputable def calcEloDelta (myElo oppElo : ℤ) (actual : ℝ) : ℤ :=
  round ((32 : ℝ) * (actual - expectedScore myElo oppElo))

/-- Result record of auth.js `calcElo`. -/
structure EloResult where
  winnerNew : ℤ
  loserNew : ℤ
  delta : ℤ
  deriving DecidableEq, Repr

/-- auth.js:
`calcElo(winnerElo, loserElo, k = 32)` returns
`{ winnerNew: winnerElo + delta, loserNew: Math.max(100, loserElo - delta), delta }`
where `delta = Math.round(k * (1 - exp))` and
`exp = 1 / (1 + Math.pow(10, (loserElo - winnerElo) / 400))`. -/
noncomputable def calcElo (winnerElo loserElo : ℤ) (k : ℝ := 32) : EloResult :=
  let exp := expectedScore winnerElo loserElo
  let delta := round (k * (1 - exp))
  { winnerNew := winnerElo + delta
    loserNew := max 100 (loserElo - delta)
    delta := delta }

/-! ### Tier system (auth.js `TIERS`, `getTier`, `calcStarAward`;
online.js star thresholds and `tierIdx`) -/

/-- One entry of the auth.js `TIERS` table.  `max = none` models the
`Infinity` bound of the last tier. -/
structure Tier where
  name : String
  min : ℤ
  max : Option ℤ
  color : String
  bg : String
  deriving DecidableEq, Repr

def ironTier : Tier :=
  { name := "Iron", min := 0, max := some 4, color := "#8a9bb0", bg := "rgba(138,155,176,0.12)" }

/-- auth.js `TIERS` (the display table). -/
def TIERS : List Tier :=
  [ ironTier,
    { name := "Bronze", min := 5, max := some 9, color := "#cd7f32", bg := "rgba(205,127,50,0.12)" },
    { name := "Silver", min := 10, max := some 14, color := "#c0c0c0", bg := "rgba(192,192,192,0.12)" },
    { name := "Gold", min := 15, max := some 19, color := "#ffd700", bg := "rgba(255,215,0,0.12)" },
    { name := "Platinum", min := 20, max := some 24, color := "#00d4ff", bg := "rgba(0,212,255,0.12)" },
    { name := "Emerald", min := 25, max := some 29, color := "#22dd77", bg := "rgba(34,221,119,0.12)" },
    { name := "Diamond", min := 30, max := some 34, color := "#b9f2ff", bg := "rgba(185,242,255,0.12)" },
    { name := "Master", min := 35, max := some 39, color := "#9b59b6", bg := "rgba(155,89,182,0.12)" },
    { name := "Grandmaster", min := 40, max := some 44, color := "#ff6b35", bg := "rgba(255,107,53,0.12)" },
    { name := "Star Captain", min := 45, max := none, color := "#ffcc00", bg := "rgba(255,204,0,0.12)" } ]

/-- The predicate `stars >= t.min && stars <= t.max` used by
`TIERS.find` in auth.js `getTier`; `stars <= Infinity` is always true. -/
def tierContains (stars : ℤ) (t : Tier) : Bool :=
  decide (t.min ≤ stars) &&
    (match t.max with
     | none => true
     | some m => decide (stars ≤ m))

/-- auth.js `getTier(stars) = TIERS.find(...) || TIERS[0]`. -/
def getTier (stars : ℤ) : Tier :=
  (TIERS.find? (tierContains stars)).getD ironTier

/-- auth.js
`calcStarAward(winnerStars, loserStars) = getTier(loserStars).min > getTier(winnerStars).min ? 2 : 1`. -/
def calcStarAward (winnerStars loserStars : ℤ) : ℤ :=
  if (getTier winnerStars).min < (getTier loserStars).min then 2 else 1

/-- The local threshold array `TIERS = [0,5,10,15,20,25,30,35,40,45]`
declared inside `handleLocalWin` in online.js. -/
def starTierThresholds : List ℕ :=
  [0, 5, 10, 15, 20, 25, 30, 35, 40, 45]

/-- online.js `tierIdx(s) = TIERS.filter(t => s >= t).length - 1`
(star counts maintained by the program are naturals). -/
def tierIdx (s : ℕ) : ℕ :=
  (starTierThresholds.filter (fun t => t ≤ s)).length - 1

/-- online.js `handleLocalWin`:
`starsAwarded = tierIdx(lStars) > tierIdx(wStars) ? 2 : 1`. -/
def starsAwarded (wStars lStars : ℕ) : ℕ :=
  if tierIdx wStars < tierIdx lStars then 2 else 1

/-! ### Cloud-function finalizer (`onRoomStatusChange`) and
timeout sweep (`checkTimedOutGames`) -/

/-- JavaScript `o || d` on a possibly-missing numeric field:
`null`, `undefined` and `0` all fall back to the default. -/
def jsOrInt (o : Option ℤ) (d : ℤ) : ℤ :=
  match o with
  | none => d
  | some v => if v = 0 then d else v

/-- A `room.playerN` seat assignment (`{uid, name, stars}`). -/
structure PlayerRef where
  uid : String
  name : Option String
  stars : Option ℤ
  deriving DecidableEq, Repr

/-- One entry of a `recentGames` bounded history list, as written by the
cloud-function finalizer. -/
structure RecentGame where
  gameId : ℕ
  result : String
  opponent : String
  starDelta : ℤ
  eloChange : ℤ
  playedAt : ℤ
  deriving DecidableEq, Repr

/-- A persistent `players/{uid}` profile record.  Fields the database may
lack are `Option`; the code reads them with `|| default` /
`Array.isArray` fallbacks. -/
structure PlayerRec where
  elo : Option ℤ
  stars : Option ℤ
  wins : Option ℤ
  losses : Option ℤ
  draws : Option ℤ
  name : Option String
  recentGames : Option (List RecentGame)
  hasUnseenResult : Bool
  deriving DecidableEq, Repr

/-- A profile record with every optional field absent (the `|| {}` default
used when `players/{uid}` does not exist). -/
def emptyPlayerRec : PlayerRec :=
  { elo := none, stars := none, wins := none, losses := none, draws := none,
    name := none, recentGames := none, hasUnseenResult := false }

/-- One flattened move `{turn, player, action}` extracted from the stored
game log. -/
structure Move where
  turn : ℤ
  player : ℤ
  action : String
  deriving DecidableEq, Repr

/-- An immutable `gamesPlayed` archival record. -/
structure GameRecord where
  winner : Option ℤ
  isDraw : Bool
  playedAt : ℤ
  p1Uid : String
  p2Uid : String
  p1Name : String
  p2Name : String
  elo1AtGame : ℤ
  elo2AtGame : ℤ
  moves : List Move
  deriving DecidableEq, Repr

/-- A `rooms/{roomId}` record, restricted to the fields the server-side
functions read or write.  `gameLog` models the flattened move list parsed
out of `rooms/{roomId}/game.gJson` (`none` = node missing or unparseable,
in which case the code keeps `moves = []`). -/
structure Room where
  status : String
  cfProcessed : Bool
  winner : Option ℤ
  player1 : Option PlayerRef
  player2 : Option PlayerRef
  timeoutAt : Option ℤ
  timerPlayer : Option ℤ
  currentPlayer : Option ℤ
  archivedGameId : Option ℕ
  winnerName : Option String
  timedOutPlayer : Option ℤ
  forfeitedBy : Option ℤ
  gameLog : Option (List Move)
  deriving DecidableEq, Repr

/-- The database state touched by the finalizer: the triggering room, the
profile store and the archival list.  A pushed `gamesPlayed` id is modelled
as the index at which the record is appended. -/
structure World where
  room : Option Room
  players : String → Option PlayerRec
  gamesPlayed : List GameRecord

/-- The star-delta computation of the finalizer (`s1`, `s2`):
draw gives `(0, 0)`; otherwise the winner gets 2 on an Elo upset
(`isUpset = winner === 1 ? elo1 < elo2 : elo2 < elo1`) else 1, and the
loser gets `-1`. -/
def cfStarDeltas (winner : Option ℤ) (elo1 elo2 : ℤ) : ℤ × ℤ :=
  if winner = some 0 then (0, 0)
  else
    let isUpset := if winner = some 1 then elo1 < elo2 else elo2 < elo1
    ( if winner = some 1 then (if isUpset then 2 else 1) else -1,
      if winner = some 2 then (if isUpset then 2 else 1) else -1 )

/-- The Elo-delta pair `d1, d2` computed by the finalizer. -/
noncomputable def cfEloDeltas (winner : Option ℤ) (elo1 elo2 : ℤ) : ℤ × ℤ :=
  if winner = some 0 then
    (calcEloDelta elo1 elo2 (1 / 2), calcEloDelta elo2 elo1 (1 / 2))
  else
    (calcEloDelta elo1 elo2 (if winner = some 1 then 1 else 0),
     calcEloDelta elo2 elo1 (if winner = some 2 then 1 else 0))

/-- Embedding of `onRoomStatusChange`, the event-triggered finalizer.  Embeds the body
of the cloud function, which runs on the `after` value of the room node:
guard on `status === "archived"` and on the `cfProcessed` idempotency flag,
lock (`cfProcessed: true`), bail out on missing seat uids, then archive a
game record, link it, and update both profiles.  `now` stands for
`Date.now()`. -/
noncomputable def runFinalizer (now : ℤ) (w : World) : World :=
  match w.room with
  | none => w
  | some after =>
    if after.status ≠ "archived" then w
    else if after.cfProcessed then w
    else
      let locked := { after with cfProcessed := true }
      match after.player1, after.player2 with
      | some p1r, some p2r =>
        let p1Name := p1r.name.getD "Player 1"
        let p2Name := p2r.name.getD "Player 2"
        let p1 := (w.players p1r.uid).getD emptyPlayerRec
        let p2 := (w.players p2r.uid).getD emptyPlayerRec
        let elo1 := jsOrInt p1.elo 1200
        let elo2 := jsOrInt p2.elo 1200
        let winner := after.winner
        let isDraw := winner = some 0
        let moves := after.gameLog.getD []
        let gameId := w.gamesPlayed.length
        let record : GameRecord :=
          { winner := winner, isDraw := decide isDraw, playedAt := now,
            p1Uid := p1r.uid, p2Uid := p2r.uid, p1Name := p1Name, p2Name := p2Name,
            elo1AtGame := elo1, elo2AtGame := elo2, moves := moves }
        let linked := { locked with archivedGameId := some gameId }
        let d := cfEloDeltas winner elo1 elo2
        let s := cfStarDeltas winner elo1 elo2
        let newElo1 := max 100 (elo1 + d.1)
        let newElo2 := max 100 (elo2 + d.2)
        let newStar1 := max 0 (jsOrInt p1.stars 0 + s.1)
        let newStar2 := max 0 (jsOrInt p2.stars 0 + s.2)
        let hist1 := p1.recentGames.getD []
        let hist2 := p2.recentGames.getD []
        let p1Entry : RecentGame :=
          { gameId := gameId,
            result := if isDraw then "draw" else if winner = some 1 then "win" else "loss",
            opponent := p2Name, starDelta := s.1, eloChange := d.1, playedAt := now }
        let p2Entry : RecentGame :=
          { gameId := gameId,
            result := if isDraw then "draw" else if winner = some 2 then "win" else "loss",
            opponent := p1Name, starDelta := s.2, eloChange := d.2, playedAt := now }
        let p1new := { p1 with
          elo := some newElo1, stars := some newStar1,
          wins := some (jsOrInt p1.wins 0 + (if ¬isDraw ∧ winner = some 1 then 1 else 0)),
          losses := some (jsOrInt p1.losses 0 + (if ¬isDraw ∧ winner = some 2 then 1 else 0)),
          draws := some (jsOrInt p1.draws 0 + (if isDraw then 1 else 0)),
          hasUnseenResult := true,
          recentGames := some ((p1Entry :: hist1).take 20) }
        let p2new := { p2 with
          elo := some newElo2, stars := some newStar2,
          wins := some (jsOrInt p2.wins 0 + (if ¬isDraw ∧ winner = some 2 then 1 else 0)),
          losses := some (jsOrInt p2.losses 0 + (if ¬isDraw ∧ winner = some 1 then 1 else 0)),
          draws := some (jsOrInt p2.draws 0 + (if isDraw then 1 else 0)),
          hasUnseenResult := true,
          recentGames := some ((p2Entry :: hist2).take 20) }
        { room := some linked,
          players := fun uid =>
            if uid = p2r.uid then some p2new
            else if uid = p1r.uid then some p1new
            else w.players uid,
          gamesPlayed := w.gamesPlayed ++ [record] }
      | _, _ => { w with room := some locked }

/-- The per-room body of the scheduled sweep `checkTimedOutGames`.
The query filter `orderByChild('status').equalTo("playing")` appears as the
first guard; the loop then skips rooms with no stored deadline
(`!room.timeoutAt || room.timeoutAt === 0`), rooms already being processed
(`cfProcessed`), and rooms whose clock has not expired (`now < timeoutAt`).
An expired room is archived with
`timedOutPlayer = room.timerPlayer ?? room.currentPlayer ?? 1` and
`winner = timedOutPlayer === 1 ? 2 : 1`, and the deadline is cleared. -/
def sweepRoom (now : ℤ) (r : Room) : Room :=
  if r.status ≠ "playing" then r
  else if (match r.timeoutAt with | none => true | some v => decide (v = 0)) then r
  else if r.cfProcessed then r
  else if now < r.timeoutAt.getD 0 then r
  else
    let timedOutPlayer := r.timerPlayer.getD (r.currentPlayer.getD 1)
    let winner := if timedOutPlayer = 1 then (2 : ℤ) else 1
    { r with
      status := "archived",
      winner := some winner,
      winnerName := some ((if winner = 1 then r.player1 else r.player2).bind
        PlayerRef.name |>.getD ("Player " ++ toString winner)),
      forfeitedBy := none,
      timedOutPlayer := some timedOutPlayer,
      timeoutAt := some 0 }

/-- The whole sweep applies `sweepRoom` independently to every room. -/
def checkTimedOutGames (now : ℤ) (rooms : List (String × Room)) : List (String × Room) :=
  rooms.map (fun p => (p.1, sweepRoom now p.2))

/-! ### Client game state and opponent-state application -/

/-- The per-seat clock object `G.timers` (keys `1` and `2`; a slot can be
absent). -/
structure Timers where
  p1 : Option ℤ
  p2 : Option ℤ
  deriving DecidableEq, Repr

/-- Read `t[p]`. -/
def Timers.read (t : Timers) (p : ℤ) : Option ℤ :=
  if p = 1 then t.p1 else if p = 2 then t.p2 else none

/-- Write `t[p] = v`. -/
def Timers.write (t : Timers) (p : ℤ) (v : Option ℤ) : Timers :=
  if p = 1 then { t with p1 := v } else if p = 2 then { t with p2 := v } else t

/-- The serialized game state `G` as far as the sync layer inspects it;
`rest` stands for the uninspected remainder (board, log, ...) that the layer
never reads. -/
structure GState where
  currentPlayer : ℤ
  phase : String
  timers : Option Timers
  interaction : String
  selectedShipId : Option ℤ
  rest : String
  deriving DecidableEq, Repr

/-- The clock value of seat `my` in an optional local state
(`G && G.timers && G.timers[my]`). -/
def localClock (my : ℤ) (og : Option GState) : Option ℤ :=
  og.bind (fun g => g.timers.bind (fun t => t.read my))

/-- An entry of the `rooms/{roomId}/actions` append-only log.
`gJson = none` models an `END_TURN` payload that fails to parse (the
handler catches the exception and leaves the state alone). -/
structure ActionEntry where
  key : ℕ
  player : ℤ
  type : String
  gJson : Option GState
  winner : Option ℤ
  ts : ℤ
  deriving DecidableEq, Repr

/-- Embedding of `processOpponentAction` as it affects the local `G` (both online.js
variants): on `END_TURN`, parse the committed snapshot and re-merge the
local clock slot
(`if (myG?.timers) theirG.timers[MY_PLAYER] = myG.timers[MY_PLAYER]`),
then `setG`; `GAME_OVER` and unknown kinds leave `G` unchanged. -/
def applyEndTurn (my : ℤ) (myG : Option GState) (theirG : GState) : GState :=
  match myG with
  | none => theirG
  | some g =>
    match g.timers with
    | none => theirG
    | some t =>
      { theirG with
        timers := some ((theirG.timers.getD { p1 := none, p2 := none }).write my (t.read my)) }

/-- The local-state effect of `processOpponentAction`. -/
def processOpponentAction (my : ℤ) (g : Option GState) (a : ActionEntry) : Option GState :=
  if a.type = "END_TURN" then
    match a.gJson with
    | some theirG => some (applyEndTurn my g theirG)
    | none => g
  else g

/-- The mutable state of an action-log subscriber: the last-seen cursor
(`_lastProcessedKey` resp. `_lastKey`) and the local game state. -/
structure SubSt where
  lastKey : Option ℕ
  g : Option GState
  deriving DecidableEq, Repr

/-- One `onChildAdded` delivery in the FIRST online.js `subscribeActions`
variant: own entries only advance the cursor; an entry equal to the cursor
is skipped; anything else advances the cursor and is processed.  The
returned flag says whether `processOpponentAction` ran. -/
def stepV1 (my : ℤ) (s : SubSt) (e : ActionEntry) : SubSt × Bool :=
  if e.player = my then ({ s with lastKey := some e.key }, false)
  else if some e.key = s.lastKey then (s, false)
  else ({ lastKey := some e.key, g := processOpponentAction my s.g e }, true)

/-- One `onChildAdded` delivery in the SECOND online.js `subscribeActions`
variant: entries whose key was captured in `existingKeys` before
subscribing are dropped first; then the duplicate-key check, the cursor
advance, and the own-echo check. -/
def stepV2 (my : ℤ) (existingKeys : List ℕ) (s : SubSt) (e : ActionEntry) : SubSt × Bool :=
  if e.key ∈ existingKeys then (s, false)
  else if some e.key = s.lastKey then (s, false)
  else
    let s1 := { s with lastKey := some e.key }
    if e.player = my then (s1, false)
    else ({ s1 with g := processOpponentAction my s1.g e }, true)

/-- Run a stream of deliveries through a step function, collecting the
entries for which the processing callback was invoked. -/
def runSub (step : SubSt → ActionEntry → SubSt × Bool) (s : SubSt) :
    List ActionEntry → SubSt × List ActionEntry
  | [] => (s, [])
  | e :: es =>
    let r := step s e
    let rest := runSub step r.1 es
    (rest.1, (if r.2 then [e] else []) ++ rest.2)

/-- Entries processed by the first `subscribeActions` variant, given the
entries present at subscription time and those appended afterwards
(`onChildAdded` replays all existing children first). -/
def subProcessedV1 (my : ℤ) (existing newEntries : List ActionEntry) : List ActionEntry :=
  (runSub (stepV1 my) { lastKey := none, g := none } (existing ++ newEntries)).2

/-- Entries processed by the second `subscribeActions` variant, which first
snapshots `existingKeys = Object.keys(existingSnap.val())`. -/
def subProcessedV2 (my : ℤ) (existing newEntries : List ActionEntry) : List ActionEntry :=
  (runSub (stepV2 my (existing.map ActionEntry.key)) { lastKey := none, g := none }
    (existing ++ newEntries)).2

/-- sync.js `subscribeActions(onActionCb, skipMine)`: deliveries that
arrive before the initial key load resolves (`initialLoadDone` still
false) are dropped; afterwards an entry is passed to the callback iff its
key is not in the captured `existingKeys` set and it is not a skipped own
entry.  `loadedAt` is the number of deliveries that precede load
completion. -/
def subProcessedSync (my : ℤ) (skipMine : Bool) (existing : List ActionEntry)
    (delivered : List ActionEntry) (loadedAt : ℕ) : List ActionEntry :=
  (delivered.drop loadedAt).filter
    (fun e => !(existing.map ActionEntry.key).contains e.key && !(skipMine && e.player == my))

/-! ### Opponent live-intent preview and state restore -/

/-- A `rooms/{roomId}/thinking` record; `gJson = none` models both a
missing live payload and a parse failure (either way `setG` is not
reached). -/
structure ThinkingData where
  player : ℤ
  interaction : String
  pendingCount : ℕ
  gJson : Option GState
  ts : ℤ
  deriving DecidableEq, Repr

/-- Embedding of `applyOpponentThinking` (second online.js variant; the first variant
body `showOpponentThinkingText` in the sync.js deployment is identical on
the state): bail out when there is no local state or it is the local turn;
merge the local clock slot into the live payload, then neutralise
`interaction` and `selectedShipId` before `setG`. -/
def applyOpponentThinking (my : ℤ) (g0 : Option GState) (data : ThinkingData) : Option GState :=
  match g0 with
  | none => none
  | some g =>
    if g.currentPlayer = my then some g
    else
      match data.gJson with
      | none => some g
      | some live =>
        let live1 :=
          match g.timers with
          | none => live
          | some t =>
            { live with
              timers := some ((live.timers.getD { p1 := none, p2 := none }).write my (t.read my)) }
        some { live1 with interaction := "IDLE", selectedShipId := none }

/-- What the restore routine does with the UI. -/
inductive UiStep where
  | startTurn
  | waitOpponent
  | renderOnly
  deriving DecidableEq, Repr

/-- Embedding of `maybeRestoreState(firstPlayer)` (second online.js variant): with no
snapshot, the designated first mover starts and the other seat waits; a
snapshot that fails to parse degrades to `doStartMyTurn` with the local
state untouched; a parsed snapshot replaces `G` wholesale via `setG`, then
the terminal-phase and active-seat checks pick the UI step.
`snap = none` models a missing snapshot, `some none` a parse failure, and
`some (some g)` a successful parse. -/
def maybeRestoreState (my firstPlayer : ℤ) (localG : Option GState)
    (snap : Option (Option GState)) : Option GState × UiStep :=
  match snap with
  | none => (localG, if my = firstPlayer then .startTurn else .waitOpponent)
  | some none => (localG, .startTurn)
  | some (some restored) =>
    if restored.phase = "OVER" then (some restored, .renderOnly)
    else if restored.currentPlayer = my then (some restored, .startTurn)
    else (some restored, .waitOpponent)

/-! ### Email verification (`checkVerifCode`) -/

/-- An `emailVerif/{uid}` record. -/
structure VerifRec where
  hash : String
  email : String
  sentAt : ℤ
  expiresAt : ℤ
  used : Bool
  attempts : Option ℕ
  deriving DecidableEq, Repr

/-- The rejection reasons thrown by `checkVerifCode`. -/
inductive VerifErr where
  | unauthorized
  | missingCode
  | noCode
  | codeUsed
  | expired
  | locked
  | wrongCode
  deriving DecidableEq, Repr

/-- Embedding of `checkVerifCode` as it affects the `emailVerif/{uid}`
record.  `hashFn` stands for `sha256`; the code hashes `code + uid`.
Returns the outcome together with the record after the call (the success
branch also flags `players/{uid}.emailVerified`, outside this record). -/
def checkVerifCode (hashFn : String → String) (now : ℤ) (callerUid : Option String)
    (uid : String) (code : Option String) (rec0 : Option VerifRec) :
    Except VerifErr Unit × Option VerifRec :=
  match callerUid with
  | none => (.error .unauthorized, rec0)
  | some c =>
    if c ≠ uid then (.error .unauthorized, rec0)
    else
      match code with
      | none => (.error .missingCode, rec0)
      | some cd =>
        match rec0 with
        | none => (.error .noCode, rec0)
        | some r =>
          if r.used then (.error .codeUsed, rec0)
          else if now > r.expiresAt then (.error .expired, rec0)
          else if r.attempts.getD 0 ≥ 5 then (.error .locked, rec0)
          else if hashFn (cd ++ uid) ≠ r.hash then
            (.error .wrongCode, some { r with attempts := some (r.attempts.getD 0 + 1) })
          else
            (.ok (), some { r with used := true })

/-! ### Concrete sample data used to instantiate the theorems -/

/-- An opponent `END_TURN` entry already in the log at subscription time. -/
def entryExisting : ActionEntry :=
  { key := 7, player := 2, type := "END_TURN", gJson := none, winner := none, ts := 10 }

/-- An opponent `END_TURN` entry appended after subscription. -/
def entryNew : ActionEntry :=
  { key := 8, player := 2, type := "END_TURN", gJson := none, winner := none, ts := 20 }

/-- A local game state whose seat-1 clock reads 999. -/
def gLocal : GState :=
  { currentPlayer := 2, phase := "PLAY", timers := some { p1 := some 999, p2 := some 50 },
    interaction := "IDLE", selectedShipId := none, rest := "local" }

/-- A stored snapshot whose seat-1 clock reads 5. -/
def gRestored : GState :=
  { currentPlayer := 1, phase := "PLAY", timers := some { p1 := some 5, p2 := some 50 },
    interaction := "IDLE", selectedShipId := none, rest := "restored" }

/-- A playing room whose clock deadline 50 has passed, seat 1 on the move. -/
def roomTimed : Room :=
  { status := "playing", cfProcessed := false, winner := none,
    player1 := some { uid := "u1", name := some "Ann", stars := some 0 },
    player2 := some { uid := "u2", name := some "Bob", stars := some 12 },
    timeoutAt := some 50, timerPlayer := some 1, currentPlayer := some 1,
    archivedGameId := none, winnerName := none, timedOutPlayer := none,
    forfeitedBy := none, gameLog := none }

/-- An untimed playing room (`timeoutAt` absent). -/
def roomUntimed : Room :=
  { roomTimed with timeoutAt := none }

/-- An archived room the finalizer has already processed. -/
def roomProcessed : Room :=
  { roomTimed with status := "archived", cfProcessed := true, winner := some 1 }

/-- A world whose room already carries the `cfProcessed` flag. -/
def worldProcessed : World :=
  { room := some roomProcessed, players := fun _ => none, gamesPlayed := [] }

/-- A verification record whose code was already consumed. -/
def recUsed : VerifRec :=
  { hash := "h", email := "a@b.c", sentAt := 0, expiresAt := 1000, used := true,
    attempts := some 1 }

/-- A fresh verification record hashed with the identity stand-in. -/
def recFresh : VerifRec :=
  { hash := "12u", email := "a@b.c", sentAt := 0, expiresAt := 1000, used := false,
    attempts := none }

/-! ## Theorems -/

/-- The function `find?` only looks at predicate values on list elements. -/
theorem find?_congruent {α : Type} (p q : α → Bool) :
    ∀ l : List α, (∀ a ∈ l, p a = q a) → l.find? p = l.find? q := by
  intro l
  induction l with
  | nil => intro _; rfl
  | cons a l ih =>
    intro h
    have ha := h a (List.mem_cons_self a l)
    by_cases hp : p a = true
    · rw [List.find?_cons_of_pos _ hp, List.find?_cons_of_pos _ (ha ▸ hp)]
    · rw [List.find?_cons_of_neg _ hp,
        List.find?_cons_of_neg _ (by rw [← ha]; exact hp),
        ih (fun x hx => h x (List.mem_cons_of_mem a hx))]

/-- Above the last threshold, tier containment only depends on the tier. -/
theorem getTier_high (n : ℤ) (h : 45 ≤ n) : getTier n = getTier 45 := by
  unfold getTier
  rw [find?_congruent (tierContains n) (tierContains 45) TIERS ?_]
  intro t ht
  fin_cases ht <;> simp [tierContains, ironTier] <;> omega

/-- For natural star counts, the auth.js tier minimum and the online.js
tier index determine each other: `min = 5 * idx` with `idx = min(s/5, 9)`. -/
theorem tier_min_idx (n : ℕ) :
    (getTier (n : ℤ)).min = 5 * min (n / 5) 9 ∧ tierIdx n = min (n / 5) 9 := by
  by_cases h : n < 45
  · interval_cases n <;> exact ⟨by decide, by decide⟩
  · push_neg at h
    constructor
    · rw [getTier_high (n : ℤ) (by exact_mod_cast h)]
      have h9 : min (n / 5) 9 = 9 := by omega
      rw [h9]
      decide
    · unfold tierIdx
      rw [List.filter_eq_self.mpr ?_]
      · have h9 : min (n / 5) 9 = 9 := by omega
        rw [h9]; decide
      · intro a ha
        fin_cases ha <;> simp <;> omega

/-- C10: `getTier` is total at the public interface: for every integer
progression count, including negatives and arbitrarily large values, it
returns a member of the `TIERS` table — the first tier whose range
contains the count when one exists, and the lowest tier (Iron) otherwise
(in particular for every negative count) — never an undefined value. -/
theorem getTier_total (s : ℤ) :
    getTier s ∈ TIERS ∧
    (TIERS.find? (tierContains s) = some (getTier s) ∨
      (TIERS.find? (tierContains s) = none ∧ getTier s = ironTier)) ∧
    ((∃ t ∈ TIERS, tierContains s t = true) → tierContains s (getTier s) = true) ∧
    ((∀ t ∈ TIERS, tierContains s t = false) → getTier s = ironTier) ∧
    (s < 0 → getTier s = ironTier) := by
  have hiron : ironTier ∈ TIERS := by unfold TIERS; exact List.mem_cons_self _ _
  cases hf : TIERS.find? (tierContains s) with
  | none =>
    have hnone : ∀ t ∈ TIERS, ¬ tierContains s t = true := List.find?_eq_none.mp hf
    have hg : getTier s = ironTier := by unfold getTier; rw [hf]; rfl
    refine ⟨hg ▸ hiron, Or.inr ⟨rfl, hg⟩, ?_, fun _ => hg, fun _ => hg⟩
    rintro ⟨t, ht, hc⟩
    exact absurd hc (hnone t ht)
  | some t =>
    have hg : getTier s = t := by unfold getTier; rw [hf]; rfl
    refine ⟨?_, Or.inl (by rw [hg]; try exact hf), ?_, ?_, ?_⟩
    · rw [hg]; exact List.mem_of_find?_eq_some hf
    · intro _; rw [hg]; exact List.find?_some hf
    · intro hall
      exact absurd (List.find?_some hf) (by simp [hall t (List.mem_of_find?_eq_some hf)])
    · intro hneg
      exfalso
      have hc := List.find?_some hf
      have hmem := List.mem_of_find?_eq_some hf
      have : ∀ u ∈ TIERS, tierContains s u = false := by
        intro u hu
        fin_cases hu <;> simp [tierContains, ironTier] <;> omega
      rw [this t hmem] at hc
      exact Bool.false_ne_true hc

/-- C10 witness at the negative count `-7`. -/
theorem getTier_total_witness :
    getTier (-7) ∈ TIERS ∧ getTier (-7) = ironTier :=
  ⟨(getTier_total (-7)).1, (getTier_total (-7)).2.2.2.2 (by decide)⟩

/-- C2 counterexample: in the cloud-function finalizer the upset bonus is
decided by Elo comparison, not by tier indices.  With pre-match stars 0
(tier index 0) for the winning seat 1 and 12 (tier index 2) for the loser,
the claim demands an award of 2; the finalizer, at equal ratings 1200,
awards 1 (star deltas `(1, -1)`). -/
theorem star_award_counterexample :
    tierIdx 0 < tierIdx 12 ∧ cfStarDeltas (some 1) 1200 1200 = (1, -1) :=
  ⟨by decide, by decide⟩

/-- C2 (amended): for every pair of pre-match progression counts, the
client-side award (`calcStarAward` in auth.js and the `starsAwarded`
computation in `handleLocalWin`) is exactly 2 when the winner tier index
(thresholds 0,5,...,45) is strictly lower than the loser tier index, and exactly 1
otherwise; the cloud-function finalizer instead grants the upset bonus on
an Elo comparison (see the counterexample). -/
theorem star_award_tier_rule (w l : ℕ) :
    calcStarAward (w : ℤ) (l : ℤ) = (starsAwarded w l : ℤ) ∧
    (calcStarAward (w : ℤ) (l : ℤ) = 2 ↔ tierIdx w < tierIdx l) ∧
    (calcStarAward (w : ℤ) (l : ℤ) = 1 ↔ ¬ tierIdx w < tierIdx l) := by
  have hw := tier_min_idx w
  have hl := tier_min_idx l
  unfold calcStarAward starsAwarded
  rw [hw.1, hl.1, hw.2, hl.2]
  by_cases h : min (w / 5) 9 < min (l / 5) 9
  · rw [if_pos (by omega), if_pos h]
    refine ⟨by norm_num, by simp [h], by simp [h]⟩
  · rw [if_neg (by omega), if_neg h]
    refine ⟨by norm_num, by simp [h], by simp [h]⟩

/-- C4: the timeout sweep never touches a room without a deadline; it
modifies a room only when the status is `playing`, the deadline is stored
and non-zero, the finalization flag is unset, and the current time has
reached the deadline; when it acts it archives the room with the winner
set to the seat other than the timed-out one and clears the deadline, so
any later sweep leaves the room alone.  Every room of a sweep batch is
processed exactly by `sweepRoom`. -/
theorem timeout_sweep_spec (now : ℤ) (r : Room) :
    (r.timeoutAt = none → sweepRoom now r = r) ∧
    (sweepRoom now r ≠ r →
      r.status = "playing" ∧ r.cfProcessed = false ∧
      ∃ d, r.timeoutAt = some d ∧ d ≠ 0 ∧ d ≤ now) ∧
    (∀ d, r.status = "playing" → r.cfProcessed = false → r.timeoutAt = some d → d ≠ 0 →
      d ≤ now →
      (sweepRoom now r).status = "archived" ∧
      (sweepRoom now r).timeoutAt = some 0 ∧
      (r.timerPlayer.getD (r.currentPlayer.getD 1) = 1 → (sweepRoom now r).winner = some 2) ∧
      (r.timerPlayer.getD (r.currentPlayer.getD 1) = 2 → (sweepRoom now r).winner = some 1) ∧
      (∀ later, sweepRoom later (sweepRoom now r) = sweepRoom now r)) ∧
    (∀ id rooms, (id, r) ∈ rooms → (id, sweepRoom now r) ∈ checkTimedOutGames now rooms) := by
  refine ⟨?_, ?_, ?_, ?_⟩
  · intro h
    unfold sweepRoom
    rw [h]
    split
    · rfl
    · rfl
  · intro hne
    unfold sweepRoom at hne
    split at hne
    · exact absurd rfl hne
    · split at hne
      · exact absurd rfl hne
      · split at hne
        · exact absurd rfl hne
        · split at hne
          · exact absurd rfl hne
          · rename_i h1 h2 h3 h4
            push_neg at h1 h4
            refine ⟨h1, by simpa using h3, ?_⟩
            cases hta : r.timeoutAt with
            | none => rw [hta] at h2; simp at h2
            | some d =>
              rw [hta] at h2 h4
              simp at h2
              exact ⟨d, rfl, h2, by simpa using h4⟩
  · intro d h1 h2 h3 h4 h5
    have hsw : sweepRoom now r =
        { r with
          status := "archived",
          winner := some (if r.timerPlayer.getD (r.currentPlayer.getD 1) = 1 then (2 : ℤ) else 1),
          winnerName := some ((if (if r.timerPlayer.getD (r.currentPlayer.getD 1) = 1
              then (2 : ℤ) else 1) = 1 then r.player1 else r.player2).bind
            PlayerRef.name |>.getD
              ("Player " ++ toString (if r.timerPlayer.getD (r.currentPlayer.getD 1) = 1
                then (2 : ℤ) else 1))),
          forfeitedBy := none,
          timedOutPlayer := some (r.timerPlayer.getD (r.currentPlayer.getD 1)),
          timeoutAt := some 0 } := by
      unfold sweepRoom
      rw [if_neg (by simp [h1]), if_neg (by simp [h3, h4]), if_neg (by simp [h2]),
        if_neg (by rw [h3]; simpa using not_lt.mpr h5)]
    refine ⟨by rw [hsw], by rw [hsw], ?_, ?_, ?_⟩
    · intro hp; rw [hsw]; simp [hp]
    · intro hp; rw [hsw]; simp [hp]
    · intro later
      rw [hsw]
      unfold sweepRoom
      rw [if_pos (by simp)]
  · intro id rooms hmem
    exact List.mem_map.mpr ⟨(id, r), hmem, rfl⟩

/-- C4 witness: `roomTimed` (deadline 50, seat 1 to move) is archived by a
sweep at time 100 with winner seat 2, and `roomUntimed` is untouched. -/
theorem timeout_sweep_spec_witness :
    sweepRoom 100 roomUntimed = roomUntimed ∧
    (sweepRoom 100 roomTimed).status = "archived" ∧
    (sweepRoom 100 roomTimed).winner = some 2 ∧
    (sweepRoom 100 roomTimed).timeoutAt = some 0 :=
  have h := (timeout_sweep_spec 100 roomTimed).2.2.1 50 (by decide) (by decide) (by decide)
    (by decide) (by decide)
  ⟨(timeout_sweep_spec 100 roomUntimed).1 (by decide), h.1, h.2.2.1 (by decide), h.2.1⟩

/-- C6: an action entry authored by the local seat that is delivered on the
action-log subscription advances the last-seen cursor to its key, is never
passed to `processOpponentAction`, and leaves the local game state
unchanged — in the first variant unconditionally, in the second variant
for every entry that survives the existing-keys filter. -/
theorem own_echo_not_reapplied (my : ℤ) (s : SubSt) (e : ActionEntry) (h : e.player = my) :
    ((stepV1 my s e).1.lastKey = some e.key ∧ (stepV1 my s e).1.g = s.g ∧
      (stepV1 my s e).2 = false) ∧
    (∀ existingKeys, e.key ∉ existingKeys →
      (stepV2 my existingKeys s e).1.lastKey = some e.key ∧
      (stepV2 my existingKeys s e).1.g = s.g ∧
      (stepV2 my existingKeys s e).2 = false) := by
  constructor
  · unfold stepV1
    rw [if_pos h]
    exact ⟨rfl, rfl, rfl⟩
  · intro ks hk
    unfold stepV2
    rw [if_neg hk]
    by_cases hdup : some e.key = s.lastKey
    · rw [if_pos hdup]
      exact ⟨hdup.symm, rfl, rfl⟩
    · rw [if_neg hdup, if_pos h]
      exact ⟨rfl, rfl, rfl⟩

/-- C6 witness: a fresh own echo (key 8, seat 2) on both variants. -/
theorem own_echo_not_reapplied_witness :
    (stepV1 2 { lastKey := some 7, g := some gLocal } entryNew).1.g = some gLocal ∧
    (stepV2 2 [7] { lastKey := some 7, g := some gLocal } entryNew).1.lastKey = some 8 ∧
    (stepV2 2 [7] { lastKey := some 7, g := some gLocal } entryNew).2 = false :=
  have h := own_echo_not_reapplied 2 { lastKey := some 7, g := some gLocal } entryNew (by decide)
  have h2 := h.2 [7] (by decide)
  ⟨h.1.2.1, h2.1, h2.2.2⟩

/-- Emission guard of the second-variant step: an entry is only processed
when its key escaped the captured existing-key set. -/
theorem stepV2_emit_notin (my : ℤ) (ks : List ℕ) (s : SubSt) (e : ActionEntry)
    (h : (stepV2 my ks s e).2 = true) : e.key ∉ ks := by
  intro hk
  unfold stepV2 at h
  rw [if_pos hk] at h
  exact Bool.false_ne_true h

/-- Every entry collected by `runSub` was emitted by its step. -/
theorem runSub_mem (step : SubSt → ActionEntry → SubSt × Bool) (s : SubSt)
    (stream : List ActionEntry) (e : ActionEntry)
    (h : e ∈ (runSub step s stream).2) :
    ∃ s', (step s' e).2 = true := by
  induction stream generalizing s with
  | nil => simp [runSub] at h
  | cons x xs ih =>
    unfold runSub at h
    rcases List.mem_append.mp h with h1 | h2
    · by_cases hb : (step s x).2 = true
      · rw [if_pos hb] at h1
        rcases List.mem_singleton.mp h1 with rfl
        exact ⟨s, hb⟩
      · rw [if_neg hb] at h1
        simp at h1
    · exact ih _ h2

/-- C5 counterexample: the FIRST online.js `subscribeActions` variant
invokes the processing callback on an opponent entry that was already in
the log at subscription time (`onChildAdded` replays existing children and
the handler has no existing-key filter): with one pre-existing entry and
nothing appended afterwards, that entry is processed. -/
theorem no_replay_counterexample :
    entryExisting ∈ subProcessedV1 1 [entryExisting] [] ∧
    entryExisting.key ∈ [entryExisting].map ActionEntry.key :=
  ⟨by decide, by decide⟩

/-- C5 (amended): the key-set-capturing subscriptions — the second
online.js `subscribeActions` variant and the sync.js one — never invoke
the callback on an entry whose key was present at subscription time; the
first online.js variant lacks the filter and replays pre-existing
opponent entries (see the counterexample). -/
theorem no_replay_of_existing (my : ℤ) (existing newEntries : List ActionEntry)
    (e : ActionEntry) (hk : e.key ∈ existing.map ActionEntry.key) :
    e ∉ subProcessedV2 my existing newEntries ∧
    (∀ skipMine delivered loadedAt,
      e ∉ subProcessedSync my skipMine existing delivered loadedAt) := by
  constructor
  · intro hmem
    obtain ⟨s', hs'⟩ := runSub_mem _ _ _ _ hmem
    exact stepV2_emit_notin my _ s' e hs' hk
  · intro skipMine delivered loadedAt hmem
    unfold subProcessedSync at hmem
    have := List.of_mem_filter hmem
    simp only [Bool.and_eq_true, Bool.not_eq_true'] at this
    have hcont : (existing.map ActionEntry.key).contains e.key = true := by
      simpa using hk
    rw [hcont] at this
    simp at this

/-- C5 witness: with `entryExisting` captured at subscription time and
`entryNew` appended later, the second variant never processes
`entryExisting`. -/
theorem no_replay_of_existing_witness :
    entryExisting ∉ subProcessedV2 1 [entryExisting] [entryNew] :=
  (no_replay_of_existing 1 [entryExisting] [entryNew] entryExisting (by decide)).1

/-- Writing a clock slot and reading the same slot returns the written
value for the two real seats, and is a no-op read otherwise. -/
theorem timers_read_write (t0 t : Timers) (p : ℤ) :
    (t0.write p (t.read p)).read p = t.read p := by
  unfold Timers.read Timers.write
  by_cases h1 : p = 1
  · simp [h1]
  · by_cases h2 : p = 2 <;> simp [h1, h2]

/-- C7 counterexample: on reconnect, `maybeRestoreState` installs the
stored snapshot wholesale — the local seat clock afterwards is the
payload value 5, not the locally tracked 999 from immediately before. -/
theorem local_clock_counterexample :
    localClock 1 (maybeRestoreState 1 1 (some gLocal) (some (some gRestored))).1 =
      some 5 ∧
    localClock 1 (some gLocal) = some 999 ∧
    ¬ localClock 1 (maybeRestoreState 1 1 (some gLocal) (some (some gRestored))).1 =
        localClock 1 (some gLocal) :=
  ⟨by decide, by decide, by decide⟩

/-- C7 (amended): when a local state with a clock object exists, applying
an opponent `END_TURN` snapshot or a live-thinking preview re-merges the
local seat clock, which afterwards equals the locally tracked value from
immediately before; the snapshot-restore path (`maybeRestoreState`) takes
the clocks from the restored payload instead (see the counterexample). -/
theorem local_clock_preserved (my : ℤ) (g : GState) (t : Timers) (h : g.timers = some t) :
    (∀ theirG, localClock my (some (applyEndTurn my (some g) theirG)) =
      localClock my (some g)) ∧
    (∀ data, localClock my (applyOpponentThinking my (some g) data) =
      localClock my (some g)) ∧
    (∀ a, a.type = "END_TURN" → ∀ theirG, a.gJson = some theirG →
      localClock my (processOpponentAction my (some g) a) = localClock my (some g)) := by
  have hloc : localClock my (some g) = t.read my := by
    unfold localClock
    rw [Option.some_bind, h, Option.some_bind]
  have hend : ∀ theirG, localClock my (some (applyEndTurn my (some g) theirG)) =
      localClock my (some g) := by
    intro theirG
    rw [hloc]
    simp only [applyEndTurn, h]
    unfold localClock
    rw [Option.some_bind, Option.some_bind]
    exact timers_read_write _ t my
  refine ⟨hend, ?_, ?_⟩
  · intro data
    simp only [applyOpponentThinking]
    by_cases hcp : g.currentPlayer = my
    · rw [if_pos hcp]
    · rw [if_neg hcp]
      cases hj : data.gJson with
      | none => rfl
      | some live =>
        rw [hloc, h]
        unfold localClock
        rw [Option.some_bind, Option.some_bind]
        exact timers_read_write _ t my
  · intro a ha theirG hj
    unfold processOpponentAction
    rw [if_pos ha, hj]
    exact hend theirG

/-- C7 witness: an opponent `END_TURN` snapshot carrying clock 5 for seat
1 leaves the locally tracked 999 in place. -/
theorem local_clock_preserved_witness :
    localClock 1 (some (applyEndTurn 1 (some gLocal) gRestored)) =
      localClock 1 (some gLocal) :=
  (local_clock_preserved 1 gLocal { p1 := some 999, p2 := some 50 } (by decide)).1 gRestored

/-- C9: `checkVerifCode` rejects — leaving the record untouched and in
particular not marking it used — when the record is already used, when the
current time is past the expiry, or when the wrong-attempt counter has
reached 5 (in which case no code ever validates again); a wrong code
increments the counter and nothing else; a correct code marks the record
used, after which every further validation is rejected (single-use). -/
theorem verif_code_rules (hashFn : String → String) (now : ℤ) (uid cd : String)
    (r : VerifRec) :
    (r.used = true →
      checkVerifCode hashFn now (some uid) uid (some cd) (some r) =
        (.error .codeUsed, some r)) ∧
    (r.used = false → now > r.expiresAt →
      checkVerifCode hashFn now (some uid) uid (some cd) (some r) =
        (.error .expired, some r)) ∧
    (r.used = false → now ≤ r.expiresAt → r.attempts.getD 0 ≥ 5 →
      checkVerifCode hashFn now (some uid) uid (some cd) (some r) =
        (.error .locked, some r)) ∧
    (r.attempts.getD 0 ≥ 5 → ∀ cd2 now2,
      (checkVerifCode hashFn now2 (some uid) uid (some cd2) (some r)).1 ≠ .ok ()) ∧
    (r.used = false → now ≤ r.expiresAt → r.attempts.getD 0 < 5 →
      hashFn (cd ++ uid) ≠ r.hash →
      checkVerifCode hashFn now (some uid) uid (some cd) (some r) =
        (.error .wrongCode, some { r with attempts := some (r.attempts.getD 0 + 1) })) ∧
    (r.used = false → now ≤ r.expiresAt → r.attempts.getD 0 < 5 →
      hashFn (cd ++ uid) = r.hash →
      checkVerifCode hashFn now (some uid) uid (some cd) (some r) =
        (.ok (), some { r with used := true }) ∧
      ∀ cd2 now2,
        checkVerifCode hashFn now2 (some uid) uid (some cd2) (some { r with used := true }) =
          (.error .codeUsed, some { r with used := true })) := by
  have hbase : ∀ (now' : ℤ) (cd' : String) (r' : VerifRec),
      checkVerifCode hashFn now' (some uid) uid (some cd') (some r') =
        (if r'.used then (.error .codeUsed, some r')
         else if now' > r'.expiresAt then (.error .expired, some r')
         else if r'.attempts.getD 0 ≥ 5 then (.error .locked, some r')
         else if hashFn (cd' ++ uid) ≠ r'.hash then
           (.error .wrongCode, some { r' with attempts := some (r'.attempts.getD 0 + 1) })
         else (.ok (), some { r' with used := true })) := by
    intro now' cd' r'
    simp only [checkVerifCode]
    rw [if_neg (by simp)]
  refine ⟨?_, ?_, ?_, ?_, ?_, ?_⟩
  · intro h1
    rw [hbase, if_pos h1]
  · intro h1 h2
    rw [hbase, if_neg (by simp [h1]), if_pos h2]
  · intro h1 h2 h3
    rw [hbase, if_neg (by simp [h1]), if_neg (by omega), if_pos h3]
  · intro h3 cd2 now2
    rw [hbase]
    by_cases h1 : r.used
    · rw [if_pos h1]; simp
    · rw [if_neg h1]
      by_cases h2 : now2 > r.expiresAt
      · rw [if_pos h2]; simp
      · rw [if_neg h2, if_pos h3]; simp
  · intro h1 h2 h3 h4
    rw [hbase, if_neg (by simp [h1]), if_neg (by omega), if_neg (by omega), if_pos h4]
  · intro h1 h2 h3 h4
    constructor
    · rw [hbase, if_neg (by simp [h1]), if_neg (by omega), if_neg (by omega),
        if_neg (by simp [h4])]
    · intro cd2 now2
      rw [hbase, if_pos rfl]

/-- C9 witness: with the identity hash stand-in, the used record rejects
with `codeUsed` unchanged, and on the fresh record the correct code "12"
succeeds once and the very same call is then rejected. -/
theorem verif_code_rules_witness :
    checkVerifCode id 5 (some "u") "u" (some "c") (some recUsed) =
      (.error .codeUsed, some recUsed) ∧
    checkVerifCode id 5 (some "u") "u" (some "12") (some recFresh) =
      (.ok (), some { recFresh with used := true }) ∧
    checkVerifCode id 6 (some "u") "u" (some "12") (some { recFresh with used := true }) =
      (.error .codeUsed, some { recFresh with used := true }) :=
  have hok := (verif_code_rules id 5 "u" "12" recFresh).2.2.2.2.2
    (by decide) (by decide) (by decide) (by decide)
  ⟨(verif_code_rules id 5 "u" "c" recUsed).1 (by decide), hok.1, hok.2 "12" 6⟩

/-- A finalizer invocation on a room already carrying the `cfProcessed`
flag is a complete no-op. -/
theorem runFinalizer_flagged (now : ℤ) (w : World) (r : Room) (hroom : w.room = some r)
    (hflag : r.cfProcessed = true) : runFinalizer now w = w := by
  simp [runFinalizer, hroom, hflag]

/-- A finalizer invocation that passes the guards leaves the room flagged
and still archived. -/
theorem runFinalizer_sets_flag (now : ℤ) (w : World) (r : Room) (hroom : w.room = some r)
    (hs : r.status = "archived") (hf : r.cfProcessed = false) :
    ∃ r', (runFinalizer now w).room = some r' ∧ r'.cfProcessed = true ∧
      r'.status = "archived" := by
  simp only [runFinalizer, hroom]
  rw [if_neg (by simp [hs]), if_neg (by simp [hf])]
  cases hp1 : r.player1 with
  | none =>
    cases hp2 : r.player2 with
    | none => exact ⟨_, rfl, rfl, hs⟩
    | some p2r => exact ⟨_, rfl, rfl, hs⟩
  | some p1r =>
    cases hp2 : r.player2 with
    | none => exact ⟨_, rfl, rfl, hs⟩
    | some p2r => exact ⟨_, rfl, rfl, hs⟩

/-- C3: finalization is idempotent.  Once the `cfProcessed` flag is set the
finalizer aborts before any profile, game-record or room write (the world
is returned untouched), and since a first effective invocation sets the
flag before its other writes, running the finalizer twice — at any pair
of times — produces exactly the state of running it once. -/
theorem finalizer_idempotent :
    (∀ now w r, w.room = some r → r.cfProcessed = true → runFinalizer now w = w) ∧
    (∀ t1 t2 w, runFinalizer t2 (runFinalizer t1 w) = runFinalizer t1 w) := by
  refine ⟨runFinalizer_flagged, ?_⟩
  intro t1 t2 w
  cases hroom : w.room with
  | none =>
    have h : ∀ t, runFinalizer t w = w := fun t => by simp only [runFinalizer, hroom]
    rw [h t1]
    exact h t2
  | some r =>
    by_cases hs : r.status = "archived"
    · cases hf : r.cfProcessed with
      | true =>
        have h1 : runFinalizer t1 w = w := runFinalizer_flagged t1 w r hroom hf
        rw [h1]
        exact runFinalizer_flagged t2 w r hroom hf
      | false =>
        obtain ⟨r', hr', hflag', _⟩ := runFinalizer_sets_flag t1 w r hroom hs hf
        exact runFinalizer_flagged t2 _ r' hr' hflag'
    · have h : ∀ t, runFinalizer t w = w := fun t => by
        simp only [runFinalizer, hroom]
        rw [if_pos (by simp [hs])]
      rw [h t1]
      exact h t2

/-- C3 witness: a second invocation on an already-processed room is a
no-op. -/
theorem finalizer_idempotent_witness :
    runFinalizer 7 worldProcessed = worldProcessed :=
  finalizer_idempotent.1 7 worldProcessed roomProcessed rfl rfl

/-- At equal ratings the expected score is one half. -/
theorem expectedScore_self (x : ℤ) : expectedScore x x = 1 / 2 := by
  unfold expectedScore
  norm_num

/-- C1: the rating delta is `round(K * (actualScore - expected))` with
`K = 32` and `expected = 1 / (1 + 10^((opponentRating - myRating)/400))`,
for every rating pair and actual score; at 1200 vs 1200 a win yields
delta 16, so `calcElo` gives the winner 1216 and the loser 1184. -/
theorem elo_delta_formula :
    (∀ myElo oppElo : ℤ, ∀ actual : ℝ,
      calcEloDelta myElo oppElo actual =
        round ((32 : ℝ) * (actual -
          1 / (1 + (10 : ℝ) ^ ((((oppElo - myElo) : ℤ) : ℝ) / 400))))) ∧
    expectedScore 1200 1200 = 1 / 2 ∧
    calcEloDelta 1200 1200 1 = 16 ∧
    calcEloDelta 1200 1200 0 = -16 ∧
    calcElo 1200 1200 = { winnerNew := 1216, loserNew := 1184, delta := 16 } := by
  have hhalf := expectedScore_self 1200
  have h16 : calcEloDelta 1200 1200 1 = 16 := by
    unfold calcEloDelta
    rw [hhalf]
    norm_num
  have hm16 : calcEloDelta 1200 1200 0 = -16 := by
    unfold calcEloDelta
    rw [hhalf]
    norm_num
    simpa using round_intCast (α := ℝ) (-16)
  refine ⟨fun myElo oppElo actual => rfl, hhalf, h16, hm16, ?_⟩
  have hd : round ((32 : ℝ) * (1 - expectedScore 1200 1200)) = 16 := by
    rw [hhalf]
    norm_num
  have hcalc : calcElo 1200 1200 =
      { winnerNew := 1200 + round ((32 : ℝ) * (1 - expectedScore 1200 1200)),
        loserNew := max 100 (1200 - round ((32 : ℝ) * (1 - expectedScore 1200 1200))),
        delta := round ((32 : ℝ) * (1 - expectedScore 1200 1200)) } := rfl
  rw [hcalc, hd]
  decide

/-- Ten to any real power is positive. -/
theorem rpow_ten_pos (y : ℝ) : 0 < (10 : ℝ) ^ y :=
  Real.rpow_pos_of_pos (by norm_num) y

/-- The two expected scores of a pairing add to one exactly. -/
theorem expectedScore_compl (a b : ℤ) : expectedScore a b + expectedScore b a = 1 := by
  unfold expectedScore
  have hswap : (((a - b : ℤ) : ℝ) / 400) = -((((b - a : ℤ) : ℝ)) / 400) := by
    push_cast
    ring
  rw [hswap, Real.rpow_neg (by norm_num)]
  set x := (10 : ℝ) ^ ((((b - a : ℤ) : ℝ)) / 400) with hxdef
  have hx : 0 < x := rpow_ten_pos _
  have h1 : (1 : ℝ) + x ≠ 0 := by positivity
  have h2 : (1 : ℝ) + x⁻¹ ≠ 0 := by positivity
  field_simp
  ring

/-- Two-adic bookkeeping: `10.factorization 2 = 1`. -/
theorem factorization_ten_two : (Nat.factorization 10) 2 = 1 := by
  have h : (10 : ℕ) = 2 * 5 := by norm_num
  rw [h, Nat.factorization_mul (by norm_num) (by norm_num)]
  simp [Nat.Prime.factorization (by norm_num : Nat.Prime 2),
    Nat.Prime.factorization (by norm_num : Nat.Prime 5)]

/-- The real `10 ^ (c / 400)` is irrational whenever `400` does not divide `c`:
otherwise its 400th power `10 ^ c` would be a 400th integer power, which
the 2-adic valuation forbids. -/
theorem ten_rpow_irrational (c : ℕ) (hc : ¬ (400 : ℕ) ∣ c) :
    Irrational ((10 : ℝ) ^ ((c : ℝ) / 400)) := by
  have hxr : ((10 : ℝ) ^ ((c : ℝ) / 400)) ^ (400 : ℕ) = ((10 ^ c : ℤ) : ℝ) := by
    rw [← Real.rpow_natCast ((10 : ℝ) ^ ((c : ℝ) / 400)) 400,
      ← Real.rpow_mul (by norm_num)]
    rw [show (c : ℝ) / 400 * ((400 : ℕ) : ℝ) = ((c : ℕ) : ℝ) by push_cast; ring]
    rw [Real.rpow_natCast]
    push_cast
    ring
  have hv : ¬∃ y : ℤ, ((10 : ℝ) ^ ((c : ℝ) / 400)) = y := by
    rintro ⟨y, hy⟩
    rw [hy] at hxr
    have hyz : y ^ (400 : ℕ) = 10 ^ c := by exact_mod_cast hxr
    have hnz : y.natAbs ^ 400 = 10 ^ c := by
      have hcong := congrArg Int.natAbs hyz
      simpa [Int.natAbs_pow] using hcong
    have hy0 : y.natAbs ≠ 0 := by
      intro h0
      rw [h0] at hnz
      rw [zero_pow (by norm_num : (400 : ℕ) ≠ 0)] at hnz
      have hpos : 0 < (10 : ℕ) ^ c := Nat.pos_pow_of_pos c (by norm_num)
      rw [← hnz] at hpos
      exact lt_irrefl 0 hpos
    have hfac : (y.natAbs ^ 400).factorization 2 = ((10 : ℕ) ^ c).factorization 2 := by
      rw [hnz]
    rw [Nat.factorization_pow, Nat.factorization_pow] at hfac
    simp only [Finsupp.smul_apply, smul_eq_mul] at hfac
    rw [factorization_ten_two] at hfac
    exact hc ⟨y.natAbs.factorization 2, by omega⟩
  exact irrational_nrt_of_notint_nrt 400 (10 ^ c) hxr hv (by norm_num)

/-- Non-negative-gap case of `expected_ne_half_odd`. -/
theorem expected_ne_half_odd_aux (a b : ℤ) (hab : 0 ≤ b - a) (k : ℤ) :
    32 * expectedScore a b ≠ (k : ℝ) + 1 / 2 := by
  intro h
  have hcast : (((b - a) : ℤ) : ℝ) = (((b - a).toNat : ℕ) : ℝ) := by
    exact_mod_cast (Int.toNat_of_nonneg hab).symm
  set c : ℕ := (b - a).toNat with hcdef
  have hE : expectedScore a b = 1 / (1 + (10 : ℝ) ^ ((c : ℝ) / 400)) := by
    unfold expectedScore
    rw [hcast]
  set x := (10 : ℝ) ^ ((c : ℝ) / 400) with hxdef
  have hx : 0 < x := rpow_ten_pos _
  have hne : (1 : ℝ) + x ≠ 0 := by positivity
  rw [hE] at h
  have hinv : (1 + x)⁻¹ * (1 + x) = 1 := inv_mul_cancel₀ hne
  have h64 : (2 * (k : ℝ) + 1) * (1 + x) = 64 := by
    have h2 := congrArg (fun z => z * (2 * (1 + x))) h
    simp only at h2
    calc (2 * (k : ℝ) + 1) * (1 + x) = ((k : ℝ) + 1 / 2) * (2 * (1 + x)) := by ring
      _ = 32 * (1 / (1 + x)) * (2 * (1 + x)) := h2.symm
      _ = 64 * ((1 + x)⁻¹ * (1 + x)) := by rw [one_div]; ring
      _ = 64 := by rw [hinv]; norm_num
  by_cases hdvd : (400 : ℕ) ∣ c
  · obtain ⟨n, hn⟩ := hdvd
    have hxn : x = (10 : ℝ) ^ n := by
      rw [hxdef, hn]
      rw [show ((((400 * n : ℕ)) : ℝ)) / 400 = ((n : ℕ) : ℝ) by push_cast; ring]
      exact Real.rpow_natCast 10 n
    rcases Nat.eq_zero_or_pos n with h0 | hpos
    · rw [h0] at hxn
      norm_num at hxn
      rw [hxn] at h64
      have hz : (2 * k + 1) * 2 = 64 := by exact_mod_cast h64
      omega
    · rw [hxn] at h64
      have hz : (2 * k + 1) * (1 + 10 ^ n) = 64 := by exact_mod_cast h64
      obtain ⟨m, rfl⟩ : ∃ m, n = m + 1 := ⟨n - 1, by omega⟩
      obtain ⟨j, hj⟩ : ∃ j : ℤ, (10 : ℤ) ^ (m + 1) = 2 * j :=
        ⟨5 * 10 ^ m, by rw [pow_succ]; ring⟩
      rw [hj] at hz
      have hexp : (2 * k + 1) * (1 + 2 * j) = 2 * (k + 2 * k * j + j) + 1 := by ring
      rw [hexp] at hz
      omega
  · have hirr : Irrational x := by
      rw [hxdef]
      exact ten_rpow_irrational c hdvd
    have h2k1 : (2 * (k : ℝ) + 1) ≠ 0 := by
      intro h0
      have : (2 * k + 1 : ℤ) = 0 := by exact_mod_cast h0
      omega
    have hxval : x = (63 - 2 * (k : ℝ)) / (2 * (k : ℝ) + 1) := by
      field_simp
      linear_combination h64
    exact hirr ⟨(63 - 2 * (k : ℚ)) / (2 * (k : ℚ) + 1), by rw [hxval]; push_cast; ring⟩

/-- The quantity `32 * expected` is never half an odd integer: the conversion gap is
either a multiple of 400 — where divisibility of 64 fails on parity — or
not, where `10 ^ (gap/400)` is irrational. -/
theorem expected_ne_half_odd (a b : ℤ) (k : ℤ) :
    32 * expectedScore a b ≠ (k : ℝ) + 1 / 2 := by
  by_cases hab : a ≤ b
  · exact expected_ne_half_odd_aux a b (by omega) k
  · intro h
    have hcompl := expectedScore_compl a b
    refine expected_ne_half_odd_aux b a (by omega) (31 - k) ?_
    push_cast
    linarith

/-- Rounding commutes with negation away from half-odd-integers. -/
theorem round_neg_of_ne_half (x : ℝ) (h : ∀ k : ℤ, x ≠ (k : ℝ) + 1 / 2) :
    round (-x) = - round x := by
  rw [round_eq, round_eq]
  rw [show -x + 1 / 2 = -(x - 1 / 2) by ring, Int.floor_neg]
  have hne : ∀ m : ℤ, x - 1 / 2 ≠ (m : ℝ) := fun m hm => h m (by linarith)
  have hlt : ((⌊x - 1 / 2⌋ : ℤ) : ℝ) < x - 1 / 2 :=
    lt_of_le_of_ne (Int.floor_le _) (fun he => hne _ he.symm)
  have hceil : ⌈x - 1 / 2⌉ = ⌊x - 1 / 2⌋ + 1 := by
    have hle : ⌈x - 1 / 2⌉ ≤ ⌊x - 1 / 2⌋ + 1 := Int.ceil_le_floor_add_one _
    have hgt : (⌊x - 1 / 2⌋ : ℤ) < ⌈x - 1 / 2⌉ := by
      have hcge : (x - 1 / 2) ≤ ((⌈x - 1 / 2⌉ : ℤ) : ℝ) := Int.le_ceil _
      exact_mod_cast lt_of_lt_of_le hlt hcge
    omega
  have hfloor : ⌊x + 1 / 2⌋ = ⌊x - 1 / 2⌋ + 1 := by
    rw [show x + 1 / 2 = (x - 1 / 2) + 1 by ring, Int.floor_add_one]
  rw [hceil, hfloor]

/-- C8: swapping the two ratings and the outcome direction negates the
rating delta, exactly: `calcEloDelta(a,b,1) = -calcEloDelta(b,a,0)` and
`calcEloDelta(a,b,0.5) = -calcEloDelta(b,a,0.5)` for every pair of integer
ratings (the two independent roundings never disagree, because
`K * (actual - expected)` can never be half an odd integer). -/
theorem elo_delta_antisymmetric (a b : ℤ) :
    calcEloDelta a b 1 = - calcEloDelta b a 0 ∧
    calcEloDelta a b (1 / 2) = - calcEloDelta b a (1 / 2) := by
  have hcompl := expectedScore_compl a b
  have hz1 : ∀ k : ℤ, (32 : ℝ) * (1 - expectedScore a b) ≠ (k : ℝ) + 1 / 2 := by
    intro k hk
    refine expected_ne_half_odd a b (31 - k) ?_
    push_cast
    linarith
  have hz2 : ∀ k : ℤ, (32 : ℝ) * (1 / 2 - expectedScore a b) ≠ (k : ℝ) + 1 / 2 := by
    intro k hk
    refine expected_ne_half_odd a b (15 - k) ?_
    push_cast
    linarith
  constructor
  · unfold calcEloDelta
    rw [show (32 : ℝ) * ((0 : ℝ) - expectedScore b a) =
        -((32 : ℝ) * (1 - expectedScore a b)) by
      rw [show expectedScore b a = 1 - expectedScore a b by linarith]; ring]
    rw [round_neg_of_ne_half _ hz1]
    ring
  · unfold calcEloDelta
    rw [show (32 : ℝ) * ((1 / 2 : ℝ) - expectedScore b a) =
        -((32 : ℝ) * (1 / 2 - expectedScore a b)) by
      rw [show expectedScore b a = 1 - expectedScore a b by linarith]; ring]
    rw [round_neg_of_ne_half _ hz2]
    ring

end Homeworlds
